import Mathlib

/-!
# taskui: the task store and the controller's `Update` step

A shallow embedding of `src/store.go` (the SQLite-backed `Store`) and of
`model.Update` in `src/main.go`.

Modelling conventions.

* A `time.Time` value and a `datetime` column are both represented by the whole
  number of seconds that their `2006-01-02 15:04:05` rendering denotes.  The
  rendering has fixed width, so the text comparison done by SQLite in
  `created_at < datetime('now', '-1 day')` and by `ORDER BY created_at` is the
  comparison of these numbers.
* The table `tasks` is the list of its rows; `id` is its primary key.
* Every database call may fail.  Whether the n-th call issued during one step
  fails is read from `Env.execErr`; a failed statement leaves the table as it was.
* Every call made through the `Store` is recorded in a log together with its
  outcome, so that statements about which calls a step issues can be expressed.
* A Go run-time panic (index out of range) is the `Except.error` result of `Update`.
* `textinput.Model` belongs to an external library.  Its `Value`, `SetValue`,
  `Focus` and `Blur` are modelled on a record with the two fields they touch; its
  `Update` is a parameter of the controller step.
-/

namespace TaskUI

/-! ## store.go -/

/-- Seconds denoted by a `2006-01-02 15:04:05` rendering. -/
abbrev Time := Int

/-- The zero `time.Time`, January 1 of year 1, 00:00:00 UTC. -/
def zeroTime : Time := -62135596800

/-- The Go struct `Task`. -/
structure Task where
  ID : Int
  Name : String
  DueDate : String
  Completed : Int
  CreatedAt : Time
  UpdatedAt : Time
deriving DecidableEq

/-- The zero value of `Task`, what `var task Task` declares. -/
def Task.zero : Task :=
  { ID := 0, Name := "", DueDate := "", Completed := 0, CreatedAt := zeroTime, UpdatedAt := zeroTime }

/-- One row of the table `tasks` created by `InitDb`. -/
structure Row where
  id : Int
  name : String
  due_date : String
  completed : Int
  created_at : Time
  updated_at : Time
deriving DecidableEq

/-- The contents of the table `tasks`. -/
abbrev DB := List Row

/-- The primary-key constraint of the table: no two rows share an `id`. -/
def KeyUnique (db : DB) : Prop := (db.map Row.id).Nodup

instance (db : DB) : Decidable (KeyUnique db) :=
  inferInstanceAs (Decidable ((db.map Row.id).Nodup))

/-- The error value returned by a failed database call. -/
inductive StorageError where
  | execFailed
deriving DecidableEq

/-- The calls the controller can make on the store. -/
inductive StoreCall where
  | getAllTasks
  | saveTask (task : Task)
  | deleteTask (task : Task)
  | updateTaskCompletion (taskID : Int) (completed : Int)
deriving DecidableEq

/-- A logged store call and whether it returned without error. -/
structure CallRec where
  call : StoreCall
  ok : Bool
deriving DecidableEq

/-- What the program reads from its surroundings during one step. -/
structure Env where
  /-- Whether the n-th database call of the step returns an error. -/
  execErr : Nat → Bool
  /-- The reading `time.Now().UTC().Unix()` in `saveTask`. -/
  unixNow : Int
  /-- The reading `time.Now()` of the Go program. -/
  now : Time
  /-- The reading `datetime('now')` of SQLite. -/
  sqlNow : Time
  /-- Scanning a `datetime` column into a string and `time.Parse` on it;
  `none` when the parse returns an error. -/
  parseTime : Time → Option Time

/-- The database behind the `Store` handle together with the log of calls. -/
structure World where
  db : DB
  log : List CallRec

/-- Append a call record to the log. -/
def World.record (w : World) (c : StoreCall) (ok : Bool) : World :=
  { w with log := w.log ++ [{ call := c, ok := ok }] }

/-- The `WHERE` clause of `getAllTasks`:
`NOT (completed = 1 AND created_at < datetime('now', '-1 day'))`. -/
def visible (sqlNow : Time) (r : Row) : Bool :=
  !(decide (r.completed = 1) && decide (r.created_at < sqlNow - 86400))

/-- The relation of `ORDER BY created_at DESC`. -/
def createdDesc (a b : Row) : Prop := b.created_at ≤ a.created_at

instance : DecidableRel createdDesc := fun a b => Int.decLe b.created_at a.created_at

/-- The rows selected by the query of `getAllTasks`, in its order. -/
def selectVisible (sqlNow : Time) (db : DB) : List Row :=
  (db.filter (visible sqlNow)).insertionSort createdDesc

/-- The body of the `rows.Next()` loop: scan one row into a `Task`; a timestamp
that does not parse is replaced by `time.Now()`. -/
def scanRow (env : Env) (r : Row) : Task :=
  { ID := r.id, Name := r.name, DueDate := r.due_date, Completed := r.completed,
    CreatedAt := (env.parseTime r.created_at).getD env.now,
    UpdatedAt := (env.parseTime r.updated_at).getD env.now }

/-- The method `Store.getAllTasks`. -/
def getAllTasks (env : Env) (w : World) : Except StorageError (List Task) × World :=
  if env.execErr w.log.length then
    (.error .execFailed, w.record .getAllTasks false)
  else
    (.ok ((selectVisible env.sqlNow w.db).map (scanRow env)), w.record .getAllTasks true)

/-- The statement `INSERT ... ON CONFLICT(id) DO UPDATE SET name, due_date,
completed, updated_at`: a row with the same `id` keeps its `created_at`. -/
def upsert (db : DB) (n : Row) : DB :=
  if db.any (fun r => decide (r.id = n.id)) then
    db.map (fun r =>
      if r.id = n.id then
        { r with name := n.name, due_date := n.due_date, completed := n.completed,
                 updated_at := n.updated_at }
      else r)
  else
    db ++ [n]

/-- The id `saveTask` writes: the clock reading when the task carries the sentinel 0. -/
def assignID (env : Env) (task : Task) : Task :=
  if task.ID = 0 then { task with ID := env.unixNow } else task

/-- The method `Store.saveTask`. -/
def saveTask (env : Env) (w : World) (task : Task) : Except StorageError Unit × World :=
  let t := assignID env task
  let now := env.now
  if env.execErr w.log.length then
    (.error .execFailed, w.record (.saveTask task) false)
  else
    (.ok (),
      { (w.record (.saveTask task) true) with
        db := upsert w.db
          { id := t.ID, name := t.Name, due_date := t.DueDate, completed := t.Completed,
            created_at := t.CreatedAt, updated_at := now } })

/-- The method `Store.deleteTask`: `DELETE FROM TASKS WHERE ID = (?)`. -/
def deleteTask (env : Env) (w : World) (task : Task) : Except StorageError Unit × World :=
  if env.execErr w.log.length then
    (.error .execFailed, w.record (.deleteTask task) false)
  else
    (.ok (),
      { (w.record (.deleteTask task) true) with
        db := w.db.filter (fun r => decide (r.id ≠ task.ID)) })

/-- The method `Store.updateTaskCompletion`:
`UPDATE tasks SET completed = ?, updated_at = ? WHERE id = ?`. -/
def updateTaskCompletion (env : Env) (w : World) (taskID : Int) (completed : Int) :
    Except StorageError Unit × World :=
  let now := env.now
  if env.execErr w.log.length then
    (.error .execFailed, w.record (.updateTaskCompletion taskID completed) false)
  else
    (.ok (),
      { (w.record (.updateTaskCompletion taskID completed) true) with
        db := w.db.map (fun r =>
          if r.id = taskID then { r with completed := completed, updated_at := now } else r) })

/-! ## main.go -/

/-- The view constant `list` (the first `iota`). -/
def list : Int := 0

/-- The view constant `edit`. -/
def edit : Int := 1

/-- The view constant `add`. -/
def add : Int := 2

/-- The struct `KeyMap`: each binding is the list of key names it holds. -/
structure KeyMap where
  Up : List String
  Down : List String
  Add : List String
  Delete : List String
  Edit : List String
  Enter : List String
  Escape : List String
  Quit : List String
  Help : List String

/-- The variable `DefaultKeyMap`; `Help` is left at its zero value. -/
def DefaultKeyMap : KeyMap :=
  { Up := ["k", "up"], Down := ["j", "down"], Add := ["a"], Delete := ["d"], Edit := ["e"],
    Enter := ["enter"], Escape := ["esc"], Quit := ["q", "ctrl+c"], Help := [] }

/-- A `tea.Msg`: a key message carrying the key name, or a message of another type. -/
inductive Msg where
  | key (k : String)
  | other
deriving DecidableEq

/-- The call `key.Matches(msg, binding)`: the key name is one of the binding. -/
def Matches (k : String) (binding : List String) : Bool := binding.contains k

/-- The cases of the `switch` on a key message. -/
inductive KeyCase where
  | Quit | Escape | Add | Delete | Edit | Up | Down | Enter | none
deriving DecidableEq

/-- The case the `switch` of `Update` selects: the first binding, in the order
written there, that the key matches. -/
def keyCase (km : KeyMap) (k : String) : KeyCase :=
  if Matches k km.Quit then .Quit
  else if Matches k km.Escape then .Escape
  else if Matches k km.Add then .Add
  else if Matches k km.Delete then .Delete
  else if Matches k km.Edit then .Edit
  else if Matches k km.Up then .Up
  else if Matches k km.Down then .Down
  else if Matches k km.Enter then .Enter
  else .none

/-- The two fields of `textinput.Model` the controller reads and writes. -/
structure TextInput where
  value : String
  focus : Bool
deriving DecidableEq

/-- The call `SetValue`. -/
def TextInput.SetValue (ti : TextInput) (s : String) : TextInput := { ti with value := s }

/-- The call `Focus`. -/
def TextInput.Focus (ti : TextInput) : TextInput := { ti with focus := true }

/-- The call `Blur`. -/
def TextInput.Blur (ti : TextInput) : TextInput := { ti with focus := false }

/-- The struct `model`.  The `store` handle is the `World` passed alongside, and
the `help` field, which `Update` never touches, is left out. -/
structure model where
  view : Int
  tasks : List Task
  cursor : Int
  textInput : TextInput
  keyMap : KeyMap

/-- A run-time panic of the Go program. -/
inductive Panic where
  | indexOutOfRange
deriving DecidableEq

/-- The indexing expression `tasks[i]`: it panics outside `0 .. len-1`. -/
def index (ts : List Task) (i : Int) : Except Panic Task :=
  if i < 0 then .error .indexOutOfRange
  else
    match ts.get? i.toNat with
    | some t => .ok t
    | none => .error .indexOutOfRange

/-- What one call of `Update` leaves behind. -/
structure Outcome where
  m : model
  db : DB
  log : List CallRec
  quit : Bool

/-- The function `initialModel`; a failed first load is fatal. -/
def initialModel (env : Env) (db : DB) : Except StorageError model :=
  match (getAllTasks env { db := db, log := [] }).1 with
  | .ok tasks =>
    .ok { tasks := tasks, view := list, textInput := { value := "", focus := false },
          cursor := -1, keyMap := DefaultKeyMap }
  | .error e => .error e

/-- Case `Escape`. -/
def updateEscape (m : model) : model :=
  if m.view = edit ∨ m.view = add then
    { m with view := list, textInput := (m.textInput.SetValue "").Blur }
  else m

/-- Case `Add`. -/
def updateAdd (m : model) : model :=
  if m.view = list then
    { m with view := add, textInput := m.textInput.Focus.SetValue "" }
  else m

/-- The cursor adjustment made after the re-list of case `Delete`. -/
def adjustCursor (m : model) : model :=
  if m.cursor ≥ (m.tasks.length : Int) ∧ m.tasks.length > 0 then
    { m with cursor := (m.tasks.length : Int) - 1 }
  else if m.tasks.length = 0 then
    { m with cursor := -1 }
  else m

/-- Case `Delete`. -/
def updateDelete (env : Env) (m : model) (w : World) : Except Panic (model × World) :=
  if m.view ≠ list then .ok (m, w)
  else if m.tasks.length = 0 ∨ m.cursor < 0 ∨ m.cursor ≥ (m.tasks.length : Int) then .ok (m, w)
  else
    match index m.tasks m.cursor with
    | .error p => .error p
    | .ok taskToDelete =>
      let d := deleteTask env w taskToDelete
      match d.1 with
      | .error _ => .ok (m, d.2)
      | .ok _ =>
        let g := getAllTasks env d.2
        match g.1 with
        | .error _ => .ok (m, g.2)
        | .ok updatedTasks => .ok (adjustCursor { m with tasks := updatedTasks }, g.2)

/-- Case `Edit`. -/
def updateEdit (m : model) : Except Panic model :=
  if m.view ≠ list then .ok m
  else if m.tasks.length = 0 ∨ m.cursor < 0 then .ok m
  else
    match index m.tasks m.cursor with
    | .error p => .error p
    | .ok t => .ok { m with view := edit, textInput := (m.textInput.SetValue t.Name).Focus }

/-- Case `Up`. -/
def updateUp (m : model) : model :=
  if m.cursor ≥ 0 then { m with cursor := m.cursor - 1 } else m

/-- Case `Down`. -/
def updateDown (m : model) : model :=
  if m.cursor < (m.tasks.length : Int) - 1 then { m with cursor := m.cursor + 1 } else m

/-- Case `Enter`, list view: toggle the completion of the selected task and
re-list.  The result is `none` where the code leaves the `switch` with `break`. -/
def enterToggle (env : Env) (m : model) (w : World) : Except Panic (Option (model × World)) :=
  if m.tasks.length = 0 ∨ m.cursor < 0 ∨ m.cursor ≥ (m.tasks.length : Int) then .ok none
  else
    match index m.tasks m.cursor with
    | .error p => .error p
    | .ok currentTask =>
      let newCompleted : Int := if currentTask.Completed = 0 then 1 else 0
      let u := updateTaskCompletion env w currentTask.ID newCompleted
      match u.1 with
      | .error _ => .ok (some (m, u.2))
      | .ok _ =>
        let g := getAllTasks env u.2
        match g.1 with
        | .error _ => .ok (some (m, g.2))
        | .ok updatedTasks => .ok (some ({ m with tasks := updatedTasks }, g.2))

/-- Case `Enter`: the task built from the input value after `var task Task`. -/
def enterTask (env : Env) (m : model) (value : String) : Except Panic Task :=
  if m.view = edit then
    if m.cursor ≥ 0 ∧ m.cursor < (m.tasks.length : Int) then
      match index m.tasks m.cursor with
      | .error p => .error p
      | .ok t =>
        .ok { ID := t.ID, Name := value, DueDate := t.DueDate, Completed := t.Completed,
              CreatedAt := t.CreatedAt, UpdatedAt := env.now }
    else .ok Task.zero
  else if m.view = add then
    .ok { ID := 0, Name := value, DueDate := "", Completed := 0,
          CreatedAt := env.now, UpdatedAt := env.now }
  else .ok Task.zero

/-- Case `Enter`, from `value := m.textInput.Value()` to the end of the case. -/
def enterSave (env : Env) (m : model) (w : World) : Except Panic (model × World) :=
  let value := m.textInput.value
  if value = "" then .ok (m, w)
  else
    match enterTask env m value with
    | .error p => .error p
    | .ok task =>
      let s := saveTask env w task
      match s.1 with
      | .error _ => .ok (m, s.2)
      | .ok _ =>
        let g := getAllTasks env s.2
        let m1 : model :=
          match g.1 with
          | .ok updatedTasks => { m with tasks := updatedTasks }
          | .error _ => m
        .ok ({ m1 with textInput := (m1.textInput.SetValue "").Blur, view := list }, g.2)

/-- Case `Enter`. -/
def updateEnter (env : Env) (m : model) (w : World) : Except Panic (model × World) :=
  if m.view = list then
    match enterToggle env m w with
    | .error p => .error p
    | .ok none => .ok (m, w)
    | .ok (some (m1, w1)) => enterSave env m1 w1
  else if m.view ≠ add ∧ m.view ≠ edit then .ok (m, w)
  else enterSave env m w

/-- The statements after the `switch`: the message is handed to the text field
when the view is `add` or `edit`. -/
def forward (tiUpdate : TextInput → Msg → TextInput) (msg : Msg) (p : model × World) : Outcome :=
  let m := p.1
  let m1 : model :=
    if m.view = add ∨ m.view = edit then { m with textInput := tiUpdate m.textInput msg } else m
  { m := m1, db := p.2.db, log := p.2.log, quit := false }

/-- The method `model.Update`, run on the database `db`; `tiUpdate` is the
`Update` of the text-field library. -/
def Update (tiUpdate : TextInput → Msg → TextInput) (env : Env) (m : model) (db : DB)
    (msg : Msg) : Except Panic Outcome :=
  let w : World := { db := db, log := [] }
  match msg with
  | .other => .ok (forward tiUpdate msg (m, w))
  | .key k =>
    match keyCase m.keyMap k with
    | .Quit => .ok { m := m, db := db, log := [], quit := true }
    | .Escape => .ok (forward tiUpdate msg (updateEscape m, w))
    | .Add => .ok (forward tiUpdate msg (updateAdd m, w))
    | .Delete => (updateDelete env m w).map (forward tiUpdate msg)
    | .Edit => (updateEdit m).map (fun m1 => forward tiUpdate msg (m1, w))
    | .Up => .ok (forward tiUpdate msg (updateUp m, w))
    | .Down => .ok (forward tiUpdate msg (updateDown m, w))
    | .Enter => (updateEnter env m w).map (forward tiUpdate msg)
    | .none => .ok (forward tiUpdate msg (m, w))

/-- A text field that, while focused, appends a key whose name is a single
character and ignores every other message: what the library does with a
printable key when the cursor is at the end of the value, where `SetValue`
puts it, up to the `CharLimit` of 156 set in `initialModel`. -/
def typeRunes (ti : TextInput) (msg : Msg) : TextInput :=
  match msg with
  | .key k =>
    if ti.focus ∧ k.length = 1 ∧ ti.value.length < 156 then { ti with value := ti.value ++ k }
    else ti
  | .other => ti

/-- Feed a sequence of messages to `Update`, starting from a model and a database. -/
def run (tiUpdate : TextInput → Msg → TextInput) (env : Env) :
    model → DB → List Msg → Except Panic (model × DB)
  | m, db, [] => .ok (m, db)
  | m, db, msg :: rest =>
    match Update tiUpdate env m db msg with
    | .error p => .error p
    | .ok o => run tiUpdate env o.m o.db rest

/-! ## Sample data -/

/-- An environment in which no call fails and timestamps parse back. -/
def calmEnv (unixNow now sqlNow : Int) : Env :=
  { execErr := fun _ => false, unixNow := unixNow, now := now, sqlNow := sqlNow,
    parseTime := fun t => some t }

/-- An environment in which exactly the second database call of the step fails. -/
def secondCallFails (unixNow now sqlNow : Int) : Env :=
  { execErr := fun n => n == 1, unixNow := unixNow, now := now, sqlNow := sqlNow,
    parseTime := fun t => some t }

/-- An environment in which exactly the third database call of the step fails. -/
def thirdCallFails (unixNow now sqlNow : Int) : Env :=
  { execErr := fun n => n == 2, unixNow := unixNow, now := now, sqlNow := sqlNow,
    parseTime := fun t => some t }

/-- A stored task created at second 1700000000. -/
def rowMilk : Row :=
  { id := 1700000000, name := "Buy milk", due_date := "", completed := 0,
    created_at := 1700000000, updated_at := 1700000000 }

/-- A stored task created 100 seconds after `rowMilk`. -/
def rowMum : Row :=
  { id := 1700000100, name := "Call mum", due_date := "", completed := 0,
    created_at := 1700000100, updated_at := 1700000100 }

/-- A completed stored task created at second 1700000000. -/
def rowDone : Row :=
  { id := 1700000000, name := "Buy milk", due_date := "", completed := 1,
    created_at := 1700000000, updated_at := 1700000050 }

/-- A stored row whose id is the sentinel value 0. -/
def rowZero : Row :=
  { id := 0, name := "Old", due_date := "", completed := 0,
    created_at := 1700000000, updated_at := 1700000000 }

/-- The task read back from `rowMilk`. -/
def taskMilk : Task :=
  { ID := 1700000000, Name := "Buy milk", DueDate := "", Completed := 0,
    CreatedAt := 1700000000, UpdatedAt := 1700000000 }

/-- The task read back from `rowMum`. -/
def taskMum : Task :=
  { ID := 1700000100, Name := "Call mum", DueDate := "", Completed := 0,
    CreatedAt := 1700000100, UpdatedAt := 1700000100 }

/-- A controller state with the default key map. -/
def mkModel (view : Int) (tasks : List Task) (cursor : Int) (value : String) (focus : Bool) :
    model :=
  { view := view, tasks := tasks, cursor := cursor,
    textInput := { value := value, focus := focus }, keyMap := DefaultKeyMap }


/-! ## The store -/

/-- In a table that satisfies its primary-key constraint a row is determined by its id. -/
theorem KeyUnique.row_eq {db : DB} (hkey : KeyUnique db) {a b : Row}
    (ha : a ∈ db) (hb : b ∈ db) (hid : a.id = b.id) : a = b :=
  List.inj_on_of_nodup_map hkey ha hb hid

/-- The rows selected by the query are the rows of the table that pass the filter. -/
theorem mem_selectVisible (sqlNow : Time) (db : DB) (r : Row) :
    r ∈ selectVisible sqlNow db ↔ r ∈ db ∧ visible sqlNow r = true := by
  unfold selectVisible
  rw [(List.perm_insertionSort createdDesc _).mem_iff, List.mem_filter]

/-- The filter of the query, as a proposition. -/
theorem visible_iff (sqlNow : Time) (r : Row) :
    visible sqlNow r = true ↔ ¬ (r.completed = 1 ∧ r.created_at < sqlNow - 86400) := by
  simp only [visible, Bool.not_eq_true', Bool.and_eq_false_imp, decide_eq_true_eq,
    decide_eq_false_iff_not, not_and]

/-- C1: when the query of `getAllTasks` succeeds, a stored row has a task
with its id in the result (and then the task scanned from that very row) exactly
when it is not both completed (`completed = 1`) and created earlier than 24 hours
before the query time; the table itself is left as it was, so a hidden row is
still stored. -/
theorem getAllTasks_lists_exactly_visible (env : Env) (w : World) (r : Row)
    (hok : env.execErr w.log.length = false) (hkey : KeyUnique w.db) (hr : r ∈ w.db) :
    ∃ ts, (getAllTasks env w).1 = .ok ts
      ∧ ((∃ t ∈ ts, t.ID = r.id) ↔ ¬ (r.completed = 1 ∧ r.created_at < env.sqlNow - 86400))
      ∧ (scanRow env r ∈ ts ↔ ¬ (r.completed = 1 ∧ r.created_at < env.sqlNow - 86400))
      ∧ (getAllTasks env w).2.db = w.db
      ∧ r ∈ (getAllTasks env w).2.db := by
  refine ⟨(selectVisible env.sqlNow w.db).map (scanRow env), ?_, ?_, ?_, ?_, ?_⟩
  · simp [getAllTasks, hok]
  · rw [← visible_iff]
    constructor
    · rintro ⟨t, ht, hid⟩
      obtain ⟨x, hx, rfl⟩ := List.mem_map.mp ht
      obtain ⟨hxdb, hxv⟩ := (mem_selectVisible _ _ _).mp hx
      have hxr : x = r := hkey.row_eq hxdb hr hid
      rw [← hxr]; exact hxv
    · intro hv
      exact ⟨scanRow env r, List.mem_map.mpr ⟨r, (mem_selectVisible _ _ _).mpr ⟨hr, hv⟩, rfl⟩, rfl⟩
  · rw [← visible_iff]
    constructor
    · intro ht
      obtain ⟨x, hx, hxe⟩ := List.mem_map.mp ht
      obtain ⟨hxdb, hxv⟩ := (mem_selectVisible _ _ _).mp hx
      have hid : x.id = r.id := congrArg Task.ID hxe
      have hxr : x = r := hkey.row_eq hxdb hr hid
      rw [← hxr]; exact hxv
    · intro hv
      exact List.mem_map.mpr ⟨r, (mem_selectVisible _ _ _).mpr ⟨hr, hv⟩, rfl⟩
  · simp [getAllTasks, hok, World.record]
  · simp [getAllTasks, hok, World.record, hr]

/-- C1, at a concrete table: of a completed row created more than a day before
the query and an open one, only the open one is listed, and both stay stored. -/
theorem getAllTasks_lists_exactly_visible_witness :
    ∃ ts, (getAllTasks (calmEnv 1700300000 1700300000 1700300000)
              { db := [rowDone, rowMum], log := [] }).1 = .ok ts
      ∧ ((∃ t ∈ ts, t.ID = rowDone.id)
          ↔ ¬ (rowDone.completed = 1 ∧ rowDone.created_at < 1700300000 - 86400))
      ∧ (scanRow (calmEnv 1700300000 1700300000 1700300000) rowDone ∈ ts
          ↔ ¬ (rowDone.completed = 1 ∧ rowDone.created_at < 1700300000 - 86400))
      ∧ (getAllTasks (calmEnv 1700300000 1700300000 1700300000)
              { db := [rowDone, rowMum], log := [] }).2.db = [rowDone, rowMum]
      ∧ rowDone ∈ (getAllTasks (calmEnv 1700300000 1700300000 1700300000)
              { db := [rowDone, rowMum], log := [] }).2.db :=
  getAllTasks_lists_exactly_visible (calmEnv 1700300000 1700300000 1700300000)
    { db := [rowDone, rowMum], log := [] } rowDone rfl (by decide) (by decide)


/-- The columns an update through `upsert` overwrites in a stored row. -/
theorem upsert_of_mem (db : DB) (n r : Row) (hr : r ∈ db) (hid : r.id = n.id) :
    upsert db n = db.map (fun x =>
      if x.id = n.id then
        { x with name := n.name, due_date := n.due_date, completed := n.completed,
                 updated_at := n.updated_at }
      else x) := by
  unfold upsert
  rw [if_pos]
  exact List.any_eq_true.mpr ⟨r, hr, by simp [hid]⟩

/-- In a table that satisfies its primary-key constraint, the rows with the id of a
stored row are that row alone. -/
theorem KeyUnique.filter_id {db : DB} (hkey : KeyUnique db) {r : Row} (hr : r ∈ db) :
    db.filter (fun x => decide (x.id = r.id)) = [r] := by
  induction db with
  | nil => simp at hr
  | cons a rest ih =>
    have hnd : a.id ∉ rest.map Row.id ∧ (rest.map Row.id).Nodup := by
      simpa [KeyUnique] using hkey
    rcases List.mem_cons.mp hr with rfl | hmem
    · have hnone : rest.filter (fun x => decide (x.id = r.id)) = [] := by
        rw [List.filter_eq_nil_iff]
        intro x hx hxe
        exact hnd.1 (List.mem_map.mpr ⟨x, hx, by simpa using hxe⟩)
      simp [List.filter_cons, hnone]
    · have hne : a.id ≠ r.id := fun h => hnd.1 (List.mem_map.mpr ⟨r, hmem, h.symm⟩)
      simp [List.filter_cons, hne, ih hnd.2 hmem]

/-- An update through `upsert` keeps the ids of the table, in order. -/
theorem upsert_ids_of_mem (db : DB) (n r : Row) (hr : r ∈ db) (hid : r.id = n.id) :
    (upsert db n).map Row.id = db.map Row.id := by
  rw [upsert_of_mem db n r hr hid, List.map_map]
  apply List.map_congr_left
  intro x _
  by_cases hx : x.id = n.id <;> simp [hx]

/-- The effect of `upsert` on a table that holds a row `r` with the id written:
that row alone carries the id afterwards, with the new columns and its own
`created_at`, and the rows with another id are as before. -/
theorem upsert_existing {db : DB} (hkey : KeyUnique db) (n r : Row) (hr : r ∈ db)
    (hid : r.id = n.id) :
    (upsert db n).filter (fun x => decide (x.id = n.id))
        = [{ r with name := n.name, due_date := n.due_date, completed := n.completed,
                    updated_at := n.updated_at }]
      ∧ (upsert db n).filter (fun x => decide (x.id ≠ n.id))
        = db.filter (fun x => decide (x.id ≠ n.id))
      ∧ KeyUnique (upsert db n)
      ∧ { r with name := n.name, due_date := n.due_date, completed := n.completed,
                 updated_at := n.updated_at } ∈ upsert db n := by
  have hmap := upsert_of_mem db n r hr hid
  refine ⟨?_, ?_, ?_, ?_⟩
  · have hf := hkey.filter_id hr
    rw [hid] at hf
    rw [hmap, List.filter_map]
    have hcomp : ((fun x : Row => decide (x.id = n.id)) ∘ fun x : Row =>
        if x.id = n.id then
          { x with name := n.name, due_date := n.due_date, completed := n.completed,
                   updated_at := n.updated_at }
        else x) = fun x : Row => decide (x.id = n.id) := by
      funext x
      by_cases hx : x.id = n.id <;> simp [hx]
    rw [hcomp, hf]
    simp [hid]
  · rw [hmap, List.filter_map]
    have hcomp : ((fun x : Row => decide (x.id ≠ n.id)) ∘ fun x : Row =>
        if x.id = n.id then
          { x with name := n.name, due_date := n.due_date, completed := n.completed,
                   updated_at := n.updated_at }
        else x) = fun x : Row => decide (x.id ≠ n.id) := by
      funext x
      by_cases hx : x.id = n.id <;> simp [hx]
    rw [hcomp]
    have hfix : ∀ x ∈ db.filter (fun x => decide (x.id ≠ n.id)),
        (if x.id = n.id then
          { x with name := n.name, due_date := n.due_date, completed := n.completed,
                   updated_at := n.updated_at }
        else x) = id x := by
      intro x hx
      have hne : x.id ≠ n.id := by simpa using (List.mem_filter.mp hx).2
      simp [hne]
    rw [List.map_congr_left hfix, List.map_id]
  · unfold KeyUnique
    rw [upsert_ids_of_mem db n r hr hid]
    exact hkey
  · rw [hmap]
    exact List.mem_map.mpr ⟨r, hr, by simp [hid]⟩

/-- A `saveTask` whose statement does not fail returns no error and runs `upsert`
with the task's columns, the id being the clock reading for the sentinel 0. -/
theorem saveTask_of_exec_ok (env : Env) (w : World) (t : Task)
    (hok : env.execErr w.log.length = false) :
    (saveTask env w t).1 = .ok ()
      ∧ (saveTask env w t).2.db = upsert w.db
          { id := (assignID env t).ID, name := (assignID env t).Name,
            due_date := (assignID env t).DueDate, completed := (assignID env t).Completed,
            created_at := (assignID env t).CreatedAt, updated_at := env.now } := by
  simp [saveTask, hok, World.record]

/-- C9, amended: for a table that satisfies its primary-key constraint and
holds a row `r`, and a task `t` with `t.ID = r.id` other than the sentinel 0
(whatever `t.CreatedAt` holds), a successful `saveTask t` leaves exactly one row
with that id: `r` with the name, due date and completed flag of `t`, the clock
reading as `updated_at` and its own `created_at`; the rows with another id are
unchanged and no row is added.  A second successful `saveTask t` leaves the same
picture, `created_at` still that of `r`. -/
theorem saveTask_existing_id (env env2 : Env) (w : World) (r : Row) (t : Task)
    (hkey : KeyUnique w.db) (hr : r ∈ w.db) (hid : t.ID = r.id) (hne : t.ID ≠ 0)
    (hok : env.execErr w.log.length = false)
    (hok2 : env2.execErr (saveTask env w t).2.log.length = false) :
    (saveTask env w t).1 = .ok ()
      ∧ (saveTask env w t).2.db.filter (fun x => decide (x.id = t.ID))
          = [{ r with name := t.Name, due_date := t.DueDate, completed := t.Completed,
                      updated_at := env.now }]
      ∧ (saveTask env w t).2.db.filter (fun x => decide (x.id ≠ t.ID))
          = w.db.filter (fun x => decide (x.id ≠ t.ID))
      ∧ (saveTask env w t).2.db.length = w.db.length
      ∧ (saveTask env2 (saveTask env w t).2 t).1 = .ok ()
      ∧ (saveTask env2 (saveTask env w t).2 t).2.db.filter (fun x => decide (x.id = t.ID))
          = [{ r with name := t.Name, due_date := t.DueDate, completed := t.Completed,
                      updated_at := env2.now }]
      ∧ (saveTask env2 (saveTask env w t).2 t).2.db.filter (fun x => decide (x.id ≠ t.ID))
          = w.db.filter (fun x => decide (x.id ≠ t.ID))
      ∧ (saveTask env2 (saveTask env w t).2 t).2.db.length = w.db.length := by
  have hassign : ∀ e : Env, assignID e t = t := fun e => by simp [assignID, hne]
  have h1 := upsert_existing hkey
    { id := t.ID, name := t.Name, due_date := t.DueDate, completed := t.Completed,
      created_at := t.CreatedAt, updated_at := env.now } r hr hid.symm
  obtain ⟨h1a, h1b, h1c, h1d⟩ := h1
  have hlen1 : (upsert w.db
      { id := t.ID, name := t.Name, due_date := t.DueDate, completed := t.Completed,
        created_at := t.CreatedAt, updated_at := env.now }).length = w.db.length := by
    rw [upsert_of_mem w.db _ r hr hid.symm, List.length_map]
  have hdb1 : (saveTask env w t).2.db = upsert w.db
      { id := t.ID, name := t.Name, due_date := t.DueDate, completed := t.Completed,
        created_at := t.CreatedAt, updated_at := env.now } := by
    rw [(saveTask_of_exec_ok env w t hok).2, hassign]
  have hdb2 : (saveTask env2 (saveTask env w t).2 t).2.db = upsert (saveTask env w t).2.db
      { id := t.ID, name := t.Name, due_date := t.DueDate, completed := t.Completed,
        created_at := t.CreatedAt, updated_at := env2.now } := by
    rw [(saveTask_of_exec_ok env2 _ t hok2).2, hassign]
  have h2 := upsert_existing h1c
    { id := t.ID, name := t.Name, due_date := t.DueDate, completed := t.Completed,
      created_at := t.CreatedAt, updated_at := env2.now } _ h1d hid.symm
  obtain ⟨h2a, h2b, _, _⟩ := h2
  have hlen2 := congrArg List.length (upsert_of_mem _
    { id := t.ID, name := t.Name, due_date := t.DueDate, completed := t.Completed,
      created_at := t.CreatedAt, updated_at := env2.now } _ h1d hid.symm)
  rw [List.length_map] at hlen2
  refine ⟨?_, ?_, ?_, ?_, ?_, ?_, ?_, ?_⟩
  · exact (saveTask_of_exec_ok env w t hok).1
  · rw [hdb1]; exact h1a
  · rw [hdb1]; exact h1b
  · rw [hdb1]; exact hlen1
  · exact (saveTask_of_exec_ok env2 _ t hok2).1
  · rw [hdb2, hdb1]; exact h2a
  · rw [hdb2, hdb1, h2b]; exact h1b
  · rw [hdb2, hdb1, hlen2]; exact hlen1


/-- C9, at a concrete table: renaming the stored "Buy milk" twice, with a
task whose `CreatedAt` differs from the stored one. -/
theorem saveTask_existing_id_witness :
    (saveTask (calmEnv 5 1700000300 5) { db := [rowMilk, rowMum], log := [] }
        { taskMilk with Name := "Buy oat milk", CreatedAt := 7 }).1 = .ok ()
      ∧ (saveTask (calmEnv 5 1700000300 5) { db := [rowMilk, rowMum], log := [] }
          { taskMilk with Name := "Buy oat milk", CreatedAt := 7 }).2.db.filter
            (fun x => decide (x.id = 1700000000))
          = [{ rowMilk with name := "Buy oat milk", updated_at := 1700000300 }]
      ∧ (saveTask (calmEnv 5 1700000300 5) { db := [rowMilk, rowMum], log := [] }
          { taskMilk with Name := "Buy oat milk", CreatedAt := 7 }).2.db.filter
            (fun x => decide (x.id ≠ 1700000000))
          = [rowMum]
      ∧ (saveTask (calmEnv 5 1700000300 5) { db := [rowMilk, rowMum], log := [] }
          { taskMilk with Name := "Buy oat milk", CreatedAt := 7 }).2.db.length = 2
      ∧ (saveTask (calmEnv 5 1700000400 5)
          (saveTask (calmEnv 5 1700000300 5) { db := [rowMilk, rowMum], log := [] }
            { taskMilk with Name := "Buy oat milk", CreatedAt := 7 }).2
          { taskMilk with Name := "Buy oat milk", CreatedAt := 7 }).1 = .ok ()
      ∧ (saveTask (calmEnv 5 1700000400 5)
          (saveTask (calmEnv 5 1700000300 5) { db := [rowMilk, rowMum], log := [] }
            { taskMilk with Name := "Buy oat milk", CreatedAt := 7 }).2
          { taskMilk with Name := "Buy oat milk", CreatedAt := 7 }).2.db.filter
            (fun x => decide (x.id = 1700000000))
          = [{ rowMilk with name := "Buy oat milk", updated_at := 1700000400 }]
      ∧ (saveTask (calmEnv 5 1700000400 5)
          (saveTask (calmEnv 5 1700000300 5) { db := [rowMilk, rowMum], log := [] }
            { taskMilk with Name := "Buy oat milk", CreatedAt := 7 }).2
          { taskMilk with Name := "Buy oat milk", CreatedAt := 7 }).2.db.filter
            (fun x => decide (x.id ≠ 1700000000))
          = [rowMum]
      ∧ (saveTask (calmEnv 5 1700000400 5)
          (saveTask (calmEnv 5 1700000300 5) { db := [rowMilk, rowMum], log := [] }
            { taskMilk with Name := "Buy oat milk", CreatedAt := 7 }).2
          { taskMilk with Name := "Buy oat milk", CreatedAt := 7 }).2.db.length = 2 :=
  saveTask_existing_id (calmEnv 5 1700000300 5) (calmEnv 5 1700000400 5)
    { db := [rowMilk, rowMum], log := [] } rowMilk
    { taskMilk with Name := "Buy oat milk", CreatedAt := 7 }
    (by decide) (by decide) rfl (by decide) rfl rfl

/-- A `saveTask` on a task with the sentinel ID 0 whose statement does not fail,
at a clock reading that is the id of no stored row, appends one row carrying that
reading as id and leaves the stored rows as they were. -/
theorem saveTask_new_without_collision (env : Env) (w : World) (t : Task) (hnew : t.ID = 0)
    (hok : env.execErr w.log.length = false) (hfresh : ∀ r ∈ w.db, r.id ≠ env.unixNow) :
    (saveTask env w t).2.db = w.db ++
      [{ id := env.unixNow, name := t.Name, due_date := t.DueDate, completed := t.Completed,
         created_at := t.CreatedAt, updated_at := env.now }] := by
  rw [(saveTask_of_exec_ok env w t hok).2]
  have hany : w.db.any (fun r => decide (r.id = env.unixNow)) = false := by
    rw [List.any_eq_false]
    intro r hr
    simpa using hfresh r hr
  simp [assignID, hnew, upsert, hany]

/-- A `saveTask` on a task with the sentinel ID 0 whose statement does not fail,
at a clock reading that is the id of a stored row `r`: no row is added, and `r`
takes the name, due date and completed flag of the new task. -/
theorem saveTask_new_on_collision (env : Env) (w : World) (t : Task) (r : Row)
    (hnew : t.ID = 0) (hok : env.execErr w.log.length = false) (hkey : KeyUnique w.db)
    (hr : r ∈ w.db) (hid : r.id = env.unixNow) :
    (saveTask env w t).2.db.length = w.db.length
      ∧ (saveTask env w t).2.db.filter (fun x => decide (x.id = env.unixNow))
          = [{ r with name := t.Name, due_date := t.DueDate, completed := t.Completed,
                      updated_at := env.now }] := by
  have hassign : assignID env t = { t with ID := env.unixNow } := by simp [assignID, hnew]
  rw [(saveTask_of_exec_ok env w t hok).2, hassign]
  refine ⟨?_, ?_⟩
  · rw [upsert_of_mem w.db _ r hr hid, List.length_map]
  · exact (upsert_existing hkey
      { id := env.unixNow, name := t.Name, due_date := t.DueDate, completed := t.Completed,
        created_at := t.CreatedAt, updated_at := env.now } r hr hid).1

/-! ## The controller -/

/-- The forwarding step keeps the view. -/
theorem forward_view (tiUpdate : TextInput → Msg → TextInput) (msg : Msg) (p : model × World) :
    (forward tiUpdate msg p).m.view = p.1.view := by
  unfold forward
  dsimp only
  split <;> rfl

/-- The forwarding step keeps the snapshot. -/
theorem forward_tasks (tiUpdate : TextInput → Msg → TextInput) (msg : Msg) (p : model × World) :
    (forward tiUpdate msg p).m.tasks = p.1.tasks := by
  unfold forward
  dsimp only
  split <;> rfl

/-- The forwarding step keeps the cursor. -/
theorem forward_cursor (tiUpdate : TextInput → Msg → TextInput) (msg : Msg) (p : model × World) :
    (forward tiUpdate msg p).m.cursor = p.1.cursor := by
  unfold forward
  dsimp only
  split <;> rfl

/-- The forwarding step makes no store call. -/
theorem forward_log (tiUpdate : TextInput → Msg → TextInput) (msg : Msg) (p : model × World) :
    (forward tiUpdate msg p).log = p.2.log := rfl

/-- The forwarding step leaves the table alone. -/
theorem forward_db (tiUpdate : TextInput → Msg → TextInput) (msg : Msg) (p : model × World) :
    (forward tiUpdate msg p).db = p.2.db := rfl

/-- C10: in Add or Edit view with an empty buffer, `Update` on a key that
selects the Enter case returns a result, issues no store call at all, leaves the
table as it was and returns the same view, snapshot and cursor; the text field is
the one the library returns for that key, so the buffer is still empty as long as
the library does not turn the Confirm key into text. -/
theorem Update_confirm_empty_buffer (tiUpdate : TextInput → Msg → TextInput) (env : Env)
    (m : model) (db : DB) (k : String)
    (hview : m.view = add ∨ m.view = edit) (hbuf : m.textInput.value = "")
    (hkey : keyCase m.keyMap k = .Enter)
    (hlib : (tiUpdate m.textInput (.key k)).value = "") :
    ∃ o, Update tiUpdate env m db (.key k) = .ok o
      ∧ o.log = [] ∧ (∀ c ∈ o.log, ∀ t, c.call ≠ .saveTask t) ∧ o.db = db
      ∧ o.m.view = m.view ∧ o.m.tasks = m.tasks ∧ o.m.cursor = m.cursor
      ∧ o.m.textInput = tiUpdate m.textInput (.key k) ∧ o.m.textInput.value = "" := by
  have hnl : m.view ≠ list := by
    rcases hview with h | h <;> rw [h] <;> decide
  have hne : ¬ (m.view ≠ add ∧ m.view ≠ edit) := by
    rcases hview with h | h <;> simp [h]
  have henter : updateEnter env m { db := db, log := [] } = .ok (m, { db := db, log := [] }) := by
    unfold updateEnter
    rw [if_neg hnl, if_neg hne]
    unfold enterSave
    simp [hbuf]
  have hti : (forward tiUpdate (.key k) (m, { db := db, log := [] })).m.textInput
      = tiUpdate m.textInput (.key k) := by
    unfold forward
    simp [hview]
  refine ⟨forward tiUpdate (.key k) (m, { db := db, log := [] }), ?_, ?_, ?_, ?_, ?_, ?_, ?_, ?_, ?_⟩
  · simp only [Update, hkey, henter]
    rfl
  · rfl
  · intro c hc
    simp [forward_log] at hc
  · rfl
  · exact forward_view _ _ _
  · exact forward_tasks _ _ _
  · exact forward_cursor _ _ _
  · exact hti
  · rw [hti]; exact hlib

/-- C10, at a concrete state: Add view, empty buffer, key "enter". -/
theorem Update_confirm_empty_buffer_witness :
    ∃ o, Update typeRunes (calmEnv 5 5 5) (mkModel add [taskMilk] 0 "" true) [rowMilk]
          (.key "enter") = .ok o
      ∧ o.log = [] ∧ (∀ c ∈ o.log, ∀ t, c.call ≠ .saveTask t) ∧ o.db = [rowMilk]
      ∧ o.m.view = (mkModel add [taskMilk] 0 "" true).view
      ∧ o.m.tasks = (mkModel add [taskMilk] 0 "" true).tasks
      ∧ o.m.cursor = (mkModel add [taskMilk] 0 "" true).cursor
      ∧ o.m.textInput = typeRunes (mkModel add [taskMilk] 0 "" true).textInput (.key "enter")
      ∧ o.m.textInput.value = "" :=
  Update_confirm_empty_buffer typeRunes (calmEnv 5 5 5) (mkModel add [taskMilk] 0 "" true)
    [rowMilk] "enter" (Or.inl rfl) rfl (by decide) (by decide)


/-- Indexing inside the bounds returns an element. -/
theorem index_of_bounds (ts : List Task) (i : Int) (h0 : 0 ≤ i) (h1 : i < (ts.length : Int)) :
    ∃ t, index ts i = .ok t := by
  have hlt : i.toNat < ts.length := by omega
  refine ⟨ts.get ⟨i.toNat, hlt⟩, ?_⟩
  unfold index
  rw [if_neg (by omega), List.get?_eq_get hlt]

/-- Indexing at or past the length panics. -/
theorem index_past_end (ts : List Task) (i : Int) (h1 : (ts.length : Int) ≤ i) :
    index ts i = .error .indexOutOfRange := by
  unfold index
  split
  · rfl
  · rw [List.get?_eq_none.mpr (by omega)]

/-- The cursor adjustment keeps the view. -/
theorem adjustCursor_view (m : model) : (adjustCursor m).view = m.view := by
  unfold adjustCursor
  split
  · rfl
  · split <;> rfl

/-- The cursor adjustment keeps the snapshot. -/
theorem adjustCursor_tasks (m : model) : (adjustCursor m).tasks = m.tasks := by
  unfold adjustCursor
  split
  · rfl
  · split <;> rfl

/-- The forwarding step leaves the text field alone in list view. -/
theorem forward_textInput_list (tiUpdate : TextInput → Msg → TextInput) (msg : Msg)
    (p : model × World) (hview : p.1.view = list) :
    (forward tiUpdate msg p).m.textInput = p.1.textInput := by
  unfold forward
  have h1 : ¬ (p.1.view = add ∨ p.1.view = edit) := by rw [hview]; decide
  simp [h1]

/-- Case `Delete` on a fresh log: it returns, keeps the view, keeps the snapshot
whenever one of its store calls failed, and its log is not a successful `saveTask`
followed by a failed re-list. -/
theorem updateDelete_spec (env : Env) (m : model) (db : DB) :
    ∃ p, updateDelete env m { db := db, log := [] } = .ok p
      ∧ p.1.view = m.view
      ∧ ((∃ c ∈ p.2.log, c.ok = false) → p.1.tasks = m.tasks)
      ∧ ¬ (∃ t, p.2.log = [{ call := .saveTask t, ok := true }, { call := .getAllTasks, ok := false }]) := by
  unfold updateDelete
  by_cases hv : m.view ≠ list
  · rw [if_pos hv]; exact ⟨_, rfl, rfl, fun _ => rfl, by simp⟩
  rw [if_neg hv]
  by_cases hg : m.tasks.length = 0 ∨ m.cursor < 0 ∨ m.cursor ≥ (m.tasks.length : Int)
  · rw [if_pos hg]; exact ⟨_, rfl, rfl, fun _ => rfl, by simp⟩
  rw [if_neg hg]
  obtain ⟨t, ht⟩ := index_of_bounds m.tasks m.cursor (by omega) (by omega)
  rw [ht]
  cases h0 : env.execErr 0 <;> cases h1 : env.execErr 1 <;>
    simp [deleteTask, getAllTasks, World.record, h0, h1, adjustCursor_view]

/-- Case `Enter` in list view on a fresh log: the toggle either leaves the
`switch`, or returns a state with the same view and text field whose snapshot is
the old one whenever one of its store calls failed, and whose log is not a
successful `saveTask` followed by a failed re-list. -/
theorem enterToggle_spec (env : Env) (m : model) (db : DB) :
    enterToggle env m { db := db, log := [] } = .ok none
      ∨ ∃ p, enterToggle env m { db := db, log := [] } = .ok (some p)
          ∧ p.1.view = m.view ∧ p.1.textInput = m.textInput
          ∧ ((∃ c ∈ p.2.log, c.ok = false) → p.1.tasks = m.tasks)
          ∧ ¬ (∃ t, p.2.log = [{ call := .saveTask t, ok := true }, { call := .getAllTasks, ok := false }]) := by
  unfold enterToggle
  by_cases hg : m.tasks.length = 0 ∨ m.cursor < 0 ∨ m.cursor ≥ (m.tasks.length : Int)
  · rw [if_pos hg]; exact Or.inl rfl
  rw [if_neg hg]
  obtain ⟨t, ht⟩ := index_of_bounds m.tasks m.cursor (by omega) (by omega)
  rw [ht]
  right
  cases h0 : env.execErr 0 <;> cases h1 : env.execErr 1 <;>
    simp [updateTaskCompletion, getAllTasks, World.record, h0, h1]

/-- The tail of case `Enter` with an empty buffer leaves the `switch` at once. -/
theorem enterSave_empty (env : Env) (m : model) (w : World) (hbuf : m.textInput.value = "") :
    enterSave env m w = .ok (m, w) := by
  unfold enterSave
  simp [hbuf]

/-- The task construction of case `Enter` never panics. -/
theorem enterTask_ok (env : Env) (m : model) (value : String) :
    ∃ t, enterTask env m value = .ok t := by
  unfold enterTask
  split
  · split
    · rename_i hb
      obtain ⟨t, ht⟩ := index_of_bounds m.tasks m.cursor (by omega) (by omega)
      rw [ht]; exact ⟨_, rfl⟩
    · exact ⟨_, rfl⟩
  · split <;> exact ⟨_, rfl⟩

/-- The tail of case `Enter` on a fresh log: it returns; when one of its store
calls failed the snapshot is the old one; when `saveTask` succeeded and the
re-list failed the view is `list` and the buffer is cleared; after any other
failure the view is the old one. -/
theorem enterSave_spec (env : Env) (m : model) (db : DB) :
    ∃ p, enterSave env m { db := db, log := [] } = .ok p
      ∧ ((∃ c ∈ p.2.log, c.ok = false) →
          p.1.tasks = m.tasks
            ∧ ((∃ t, p.2.log = [{ call := .saveTask t, ok := true }, { call := .getAllTasks, ok := false }]) → p.1.view = list ∧ p.1.textInput.value = "")
            ∧ ((¬ ∃ t, p.2.log = [{ call := .saveTask t, ok := true }, { call := .getAllTasks, ok := false }]) → p.1.view = m.view)) := by
  unfold enterSave
  by_cases hb : m.textInput.value = ""
  · simp [hb]
  obtain ⟨t, ht⟩ := enterTask_ok env m m.textInput.value
  simp only [hb, if_false, ht]
  cases h0 : env.execErr 0 <;> cases h1 : env.execErr 1 <;>
    simp [saveTask, getAllTasks, World.record, h0, h1, TextInput.SetValue, TextInput.Blur]

/-- Case `Enter` on a fresh log, in a state whose buffer is empty in list view:
it returns; when one of its store calls failed the snapshot is the old one; when
`saveTask` succeeded and the re-list failed the view is `list` and the buffer is
cleared; after any other failure the view is the old one. -/
theorem updateEnter_spec (env : Env) (m : model) (db : DB)
    (hinv : m.view = list → m.textInput.value = "") :
    ∃ p, updateEnter env m { db := db, log := [] } = .ok p
      ∧ ((∃ c ∈ p.2.log, c.ok = false) →
          p.1.tasks = m.tasks
            ∧ ((∃ t, p.2.log = [{ call := .saveTask t, ok := true }, { call := .getAllTasks, ok := false }]) → p.1.view = list ∧ p.1.textInput.value = "")
            ∧ ((¬ ∃ t, p.2.log = [{ call := .saveTask t, ok := true }, { call := .getAllTasks, ok := false }]) → p.1.view = m.view)) := by
  unfold updateEnter
  by_cases hv : m.view = list
  · rw [if_pos hv]
    rcases enterToggle_spec env m db with
      hnone | ⟨⟨m1, w1⟩, hsome, hview, hti, htasks, hform⟩
    · rw [hnone]
      exact ⟨_, rfl, fun ⟨c, hc, _⟩ => absurd hc (List.not_mem_nil c)⟩
    · rw [hsome]
      have hbuf : m1.textInput.value = "" := by
        have := hinv hv
        simp only at hti
        rw [hti]; exact this
      simp only [enterSave_empty env m1 w1 hbuf]
      exact ⟨_, rfl, fun hf => ⟨htasks hf, fun h => absurd h hform, fun _ => hview⟩⟩
  · rw [if_neg hv]
    by_cases hother : m.view ≠ add ∧ m.view ≠ edit
    · rw [if_pos hother]
      exact ⟨_, rfl, fun ⟨c, hc, _⟩ => absurd hc (List.not_mem_nil c)⟩
    · rw [if_neg hother]
      exact enterSave_spec env m db

/-- C5, amended: take a state whose buffer is empty whenever its view is
List (every state reached from `initialModel` is such).  On a key other than one
selecting the Edit case `Update` returns; and whenever it returns and a store
operation invoked during the step failed, the snapshot is the one before the key;
if the calls of the step were a successful `saveTask` followed by a failed
re-list, the view after the key is List and the buffer is empty; after every
other failure the view is the one before the key. -/
theorem Update_store_failure (tiUpdate : TextInput → Msg → TextInput) (env : Env)
    (m : model) (db : DB) (msg : Msg)
    (hinv : m.view = list → m.textInput.value = "") :
    ((∀ k, msg = .key k → keyCase m.keyMap k ≠ .Edit) →
        ∃ o, Update tiUpdate env m db msg = .ok o)
      ∧ ∀ o, Update tiUpdate env m db msg = .ok o → (∃ c ∈ o.log, c.ok = false) →
          o.m.tasks = m.tasks
            ∧ ((∃ t, o.log = [{ call := .saveTask t, ok := true }, { call := .getAllTasks, ok := false }]) → o.m.view = list ∧ o.m.textInput.value = "")
            ∧ ((¬ ∃ t, o.log = [{ call := .saveTask t, ok := true }, { call := .getAllTasks, ok := false }]) → o.m.view = m.view) := by
  cases msg with
  | other =>
    refine ⟨fun _ => ⟨_, rfl⟩, ?_⟩
    intro o ho ⟨c, hc, _⟩
    simp only [Update, Except.ok.injEq] at ho
    subst ho
    exact absurd hc (List.not_mem_nil c)
  | key k =>
    obtain ⟨pd, hpd, hdv, hdt, hdform⟩ := updateDelete_spec env m db
    obtain ⟨pe, hpe, het⟩ := updateEnter_spec env m db hinv
    constructor
    · intro hk
      have hk2 := hk k rfl
      unfold Update
      simp only
      cases hc : keyCase m.keyMap k
      case Edit => exact absurd hc hk2
      case Delete => simp only [hpd, Except.map]; exact ⟨_, rfl⟩
      case Enter => simp only [hpe, Except.map]; exact ⟨_, rfl⟩
      all_goals exact ⟨_, rfl⟩
    · intro o ho hfail
      unfold Update at ho
      simp only at ho
      cases hc : keyCase m.keyMap k <;> rw [hc] at ho <;> simp only at ho
      case Delete =>
        simp only [hpd, Except.map, Except.ok.injEq] at ho
        subst ho
        rw [forward_tasks, forward_view, forward_log]
        rw [forward_log] at hfail
        exact ⟨hdt hfail, fun h => absurd h hdform, fun _ => hdv⟩
      case Enter =>
        simp only [hpe, Except.map, Except.ok.injEq] at ho
        subst ho
        rw [forward_tasks, forward_view, forward_log]
        rw [forward_log] at hfail
        obtain ⟨htasks, hsave, hother⟩ := het hfail
        refine ⟨htasks, ?_, hother⟩
        intro hform
        obtain ⟨hlist, hbuf⟩ := hsave hform
        refine ⟨hlist, ?_⟩
        rw [forward_textInput_list tiUpdate (.key k) pe hlist]
        exact hbuf
      case Edit =>
        obtain ⟨c, hcm, _⟩ := hfail
        cases hedit : updateEdit m with
        | error p => rw [hedit] at ho; simp [Except.map] at ho
        | ok m1 =>
          rw [hedit] at ho
          simp only [Except.map, Except.ok.injEq] at ho
          subst ho
          exact absurd hcm (List.not_mem_nil c)
      all_goals
        obtain ⟨c, hcm, _⟩ := hfail
        simp only [Except.ok.injEq] at ho
        subst ho
        exact absurd hcm (List.not_mem_nil c)

/-- C5, at a concrete run: in Add view with buffer "x" the save succeeds and
the re-list fails; the snapshot is kept, the view is List and the buffer is empty. -/
theorem Update_store_failure_witness :
    ∃ o, Update typeRunes (secondCallFails 1700000200 1700000200 1700000200)
          (mkModel add [taskMilk] 0 "x" true) [rowMilk] (.key "enter") = .ok o
      ∧ (∃ c ∈ o.log, c.ok = false)
      ∧ o.m.tasks = [taskMilk]
      ∧ o.m.view = list ∧ o.m.textInput.value = "" :=
  ⟨_, rfl, ⟨{ call := .getAllTasks, ok := false }, by decide, rfl⟩,
    ((Update_store_failure typeRunes (secondCallFails 1700000200 1700000200 1700000200)
      (mkModel add [taskMilk] 0 "x" true) [rowMilk] (.key "enter") (by decide)).2 _ rfl
      ⟨{ call := .getAllTasks, ok := false }, by decide, rfl⟩).1,
    ((Update_store_failure typeRunes (secondCallFails 1700000200 1700000200 1700000200)
      (mkModel add [taskMilk] 0 "x" true) [rowMilk] (.key "enter") (by decide)).2 _ rfl
      ⟨{ call := .getAllTasks, ok := false }, by decide, rfl⟩).2.1 ⟨_, rfl⟩⟩

/-! ## What the cases of `Update` do in general -/

/-- Case `Edit` in list view with a non-empty snapshot and a cursor at or past
its length: the guard lets the state through and the indexing panics. -/
theorem Update_edit_key_past_end (tiUpdate : TextInput → Msg → TextInput) (env : Env)
    (m : model) (db : DB) (k : String) (hkey : keyCase m.keyMap k = .Edit)
    (hview : m.view = list) (hlen : m.tasks.length ≠ 0)
    (hcur : (m.tasks.length : Int) ≤ m.cursor) :
    Update tiUpdate env m db (.key k) = .error .indexOutOfRange := by
  have hedit : updateEdit m = .error .indexOutOfRange := by
    unfold updateEdit
    rw [if_neg (by simp [hview]), if_neg (by omega), index_past_end m.tasks m.cursor hcur]
  simp only [Update, hkey, hedit]
  rfl

/-- Case `Edit` in list view with an empty snapshot or a negative cursor: the
state is returned as it is. -/
theorem Update_edit_key_guarded (tiUpdate : TextInput → Msg → TextInput) (env : Env)
    (m : model) (db : DB) (k : String) (hkey : keyCase m.keyMap k = .Edit)
    (hview : m.view = list) (hguard : m.tasks.length = 0 ∨ m.cursor < 0) :
    ∃ o, Update tiUpdate env m db (.key k) = .ok o
      ∧ o.m.view = m.view ∧ o.m.tasks = m.tasks ∧ o.m.cursor = m.cursor
      ∧ o.m.textInput = m.textInput ∧ o.log = [] := by
  have hedit : updateEdit m = .ok m := by
    unfold updateEdit
    rw [if_neg (by simp [hview]), if_pos hguard]
  refine ⟨forward tiUpdate (.key k) (m, { db := db, log := [] }), ?_, ?_, ?_, ?_, ?_, rfl⟩
  · simp only [Update, hkey, hedit]
    rfl
  · exact forward_view _ _ _
  · exact forward_tasks _ _ _
  · exact forward_cursor _ _ _
  · unfold forward
    have h1 : ¬ (m.view = add ∨ m.view = edit) := by rw [hview]; decide
    simp [h1]

/-- Case `Up` has no guard on the view: in every view a cursor that is not
negative is decremented. -/
theorem Update_up_key_decrements (tiUpdate : TextInput → Msg → TextInput) (env : Env)
    (m : model) (db : DB) (k : String) (hkey : keyCase m.keyMap k = .Up)
    (hcur : 0 ≤ m.cursor) :
    ∃ o, Update tiUpdate env m db (.key k) = .ok o ∧ o.m.view = m.view
      ∧ o.m.cursor = m.cursor - 1 := by
  refine ⟨forward tiUpdate (.key k) (updateUp m, { db := db, log := [] }), ?_, ?_, ?_⟩
  · simp only [Update, hkey]
  · rw [forward_view]
    unfold updateUp
    split <;> rfl
  · rw [forward_cursor]
    unfold updateUp
    rw [if_pos (by omega)]

/-- Case `Down` has no guard on the view: in every view a cursor below the last
index is incremented. -/
theorem Update_down_key_increments (tiUpdate : TextInput → Msg → TextInput) (env : Env)
    (m : model) (db : DB) (k : String) (hkey : keyCase m.keyMap k = .Down)
    (hcur : m.cursor < (m.tasks.length : Int) - 1) :
    ∃ o, Update tiUpdate env m db (.key k) = .ok o ∧ o.m.view = m.view
      ∧ o.m.cursor = m.cursor + 1 := by
  refine ⟨forward tiUpdate (.key k) (updateDown m, { db := db, log := [] }), ?_, ?_, ?_⟩
  · simp only [Update, hkey]
  · rw [forward_view]
    unfold updateDown
    split <;> rfl
  · rw [forward_cursor]
    unfold updateDown
    rw [if_pos hcur]

/-- Case `Add` in list view: the view becomes `add`, and since the forwarding
test reads the new view, the text field after the step is what the library makes
of the emptied, focused field and the Add key itself. -/
theorem Update_add_key_forwards (tiUpdate : TextInput → Msg → TextInput) (env : Env)
    (m : model) (db : DB) (k : String) (hkey : keyCase m.keyMap k = .Add)
    (hview : m.view = list) :
    ∃ o, Update tiUpdate env m db (.key k) = .ok o ∧ o.m.view = add
      ∧ o.m.textInput = tiUpdate { value := "", focus := true } (.key k) := by
  refine ⟨forward tiUpdate (.key k) (updateAdd m, { db := db, log := [] }), ?_, ?_, ?_⟩
  · simp only [Update, hkey]
  · rw [forward_view]
    simp [updateAdd, hview]
  · simp [forward, updateAdd, hview, TextInput.Focus, TextInput.SetValue]

/-- Case `Edit` in list view with a valid cursor on task `t`: the view becomes
`edit`, and the text field after the step is what the library makes of the field
holding `t.Name` and the Edit key itself. -/
theorem Update_edit_key_forwards (tiUpdate : TextInput → Msg → TextInput) (env : Env)
    (m : model) (db : DB) (k : String) (t : Task) (hkey : keyCase m.keyMap k = .Edit)
    (hview : m.view = list) (hcur : 0 ≤ m.cursor) (ht : index m.tasks m.cursor = .ok t) :
    ∃ o, Update tiUpdate env m db (.key k) = .ok o ∧ o.m.view = edit
      ∧ o.m.textInput = tiUpdate { value := t.Name, focus := true } (.key k) := by
  have hlen : ¬ (m.tasks.length = 0 ∨ m.cursor < 0) := by
    rintro (h | h)
    · have hnil : m.tasks = [] := List.length_eq_zero.mp h
      rw [hnil] at ht
      unfold index at ht
      split at ht <;> simp at ht
    · omega
  have hedit : updateEdit m
      = .ok { m with view := edit, textInput := (m.textInput.SetValue t.Name).Focus } := by
    unfold updateEdit
    rw [if_neg (by simp [hview]), if_neg hlen, ht]
  refine ⟨forward tiUpdate (.key k)
    ({ m with view := edit, textInput := (m.textInput.SetValue t.Name).Focus },
      { db := db, log := [] }), ?_, ?_, ?_⟩
  · simp only [Update, hkey, hedit]
    rfl
  · rw [forward_view]
  · simp [forward, TextInput.Focus, TextInput.SetValue]

/-- Case `Enter` in Edit view with a non-empty buffer and a cursor that is not an
index of the snapshot: the task handed to `saveTask` is the zero task, whose name
is empty. -/
theorem Update_edit_confirm_invalid_cursor (tiUpdate : TextInput → Msg → TextInput)
    (env : Env) (m : model) (db : DB) (k : String) (hkey : keyCase m.keyMap k = .Enter)
    (hview : m.view = edit) (hbuf : m.textInput.value ≠ "")
    (hcur : m.cursor < 0 ∨ (m.tasks.length : Int) ≤ m.cursor) :
    ∃ o, Update tiUpdate env m db (.key k) = .ok o
      ∧ o.log.head? = some { call := .saveTask Task.zero, ok := !env.execErr 0 } := by
  have htask : enterTask env m m.textInput.value = .ok Task.zero := by
    unfold enterTask
    rw [if_pos hview, if_neg (by omega)]
  have hnl : m.view ≠ list := by rw [hview]; decide
  have hne : ¬ (m.view ≠ add ∧ m.view ≠ edit) := by simp [hview]
  have hsave : ∃ p, updateEnter env m { db := db, log := [] } = .ok p
      ∧ p.2.log.head? = some { call := .saveTask Task.zero, ok := !env.execErr 0 } := by
    unfold updateEnter
    rw [if_neg hnl, if_neg hne]
    unfold enterSave
    simp only [hbuf, if_false, htask]
    cases h0 : env.execErr 0 <;> cases h1 : env.execErr 1 <;>
      simp [saveTask, getAllTasks, World.record, h0, h1]
  obtain ⟨p, hp, hlog⟩ := hsave
  refine ⟨forward tiUpdate (.key k) p, ?_, ?_⟩
  · simp only [Update, hkey, hp]
    rfl
  · rw [forward_log]; exact hlog

/-- The clamp policy, as computed by the cursor adjustment of case `Delete`. -/
theorem adjustCursor_cursor (m : model) :
    (m.tasks.length = 0 → (adjustCursor m).cursor = -1)
      ∧ (m.tasks.length ≠ 0 → (m.tasks.length : Int) ≤ m.cursor →
          (adjustCursor m).cursor = (m.tasks.length : Int) - 1)
      ∧ (m.tasks.length ≠ 0 → m.cursor < (m.tasks.length : Int) →
          (adjustCursor m).cursor = m.cursor) := by
  unfold adjustCursor
  refine ⟨?_, ?_, ?_⟩
  · intro h
    rw [if_neg (by omega), if_pos h]
  · intro h hc
    rw [if_pos ⟨hc, by omega⟩]
  · intro h hc
    rw [if_neg (by omega), if_neg h]

/-- Case `Delete` with both store calls succeeding: the cursor after the re-list
follows the clamp policy, and is below the length of a non-empty new snapshot. -/
theorem Update_delete_clamps (tiUpdate : TextInput → Msg → TextInput) (env : Env)
    (m : model) (db : DB) (k : String) (hkey : keyCase m.keyMap k = .Delete)
    (hview : m.view = list) (h0 : 0 ≤ m.cursor) (h1 : m.cursor < (m.tasks.length : Int))
    (hdel : env.execErr 0 = false) (hlist : env.execErr 1 = false) :
    ∃ o, Update tiUpdate env m db (.key k) = .ok o
      ∧ o.log.map CallRec.ok = [true, true]
      ∧ (o.m.tasks.length = 0 → o.m.cursor = -1)
      ∧ (o.m.tasks.length ≠ 0 → (o.m.tasks.length : Int) ≤ m.cursor →
          o.m.cursor = (o.m.tasks.length : Int) - 1)
      ∧ (o.m.tasks.length ≠ 0 → m.cursor < (o.m.tasks.length : Int) → o.m.cursor = m.cursor)
      ∧ (o.m.tasks.length ≠ 0 → o.m.cursor < (o.m.tasks.length : Int)) := by
  obtain ⟨t, ht⟩ := index_of_bounds m.tasks m.cursor h0 h1
  have hdelete : ∃ ts w2, updateDelete env m { db := db, log := [] }
        = .ok (adjustCursor { m with tasks := ts }, w2)
      ∧ w2.log.map CallRec.ok = [true, true] := by
    unfold updateDelete
    rw [if_neg (by simp [hview]), if_neg (by omega), ht]
    simp only [deleteTask, getAllTasks, World.record, hdel, hlist, List.length_nil,
      List.nil_append, List.length_singleton, List.length_cons, Nat.zero_add, Nat.reduceAdd,
      Bool.false_eq_true, if_false]
    exact ⟨_, _, rfl, rfl⟩
  obtain ⟨ts, w2, hupd, hlog⟩ := hdelete
  have hc := adjustCursor_cursor { m with tasks := ts }
  have htasks := adjustCursor_tasks { m with tasks := ts }
  simp only at hc htasks
  refine ⟨forward tiUpdate (.key k) (adjustCursor { m with tasks := ts }, w2), ?_, ?_, ?_⟩
  · simp only [Update, hkey, hupd]
    rfl
  · rw [forward_log]; exact hlog
  · rw [forward_tasks, forward_cursor]
    simp only [htasks]
    refine ⟨hc.1, hc.2.1, hc.2.2, ?_⟩
    intro hne
    by_cases hle : (ts.length : Int) ≤ m.cursor
    · rw [hc.2.1 hne hle]; omega
    · rw [hc.2.2 hne (by omega)]; omega

/-- Case `Enter` in list view makes no cursor adjustment: whatever the re-list
returns, the cursor after the step is the cursor before it. -/
theorem Update_toggle_keeps_cursor (tiUpdate : TextInput → Msg → TextInput) (env : Env)
    (m : model) (db : DB) (k : String) (hkey : keyCase m.keyMap k = .Enter)
    (hview : m.view = list) (hbuf : m.textInput.value = "") :
    ∃ o, Update tiUpdate env m db (.key k) = .ok o ∧ o.m.cursor = m.cursor := by
  have henter : ∃ p, updateEnter env m { db := db, log := [] } = .ok p
      ∧ p.1.cursor = m.cursor := by
    unfold updateEnter
    rw [if_pos hview]
    unfold enterToggle
    by_cases hg : m.tasks.length = 0 ∨ m.cursor < 0 ∨ m.cursor ≥ (m.tasks.length : Int)
    · rw [if_pos hg]; exact ⟨_, rfl, rfl⟩
    rw [if_neg hg]
    obtain ⟨t, ht⟩ := index_of_bounds m.tasks m.cursor (by omega) (by omega)
    rw [ht]
    cases h0 : env.execErr 0 <;> cases h1 : env.execErr 1 <;>
      simp [updateTaskCompletion, getAllTasks, World.record, h0, h1, enterSave, hbuf]
  obtain ⟨p, hp, hcur⟩ := henter
  refine ⟨forward tiUpdate (.key k) p, ?_, ?_⟩
  · simp only [Update, hkey, hp]
    rfl
  · rw [forward_cursor]; exact hcur

/-- Case `Delete` on a fresh log touches neither the view nor the text field. -/
theorem updateDelete_frame (env : Env) (m : model) (db : DB) :
    ∃ p, updateDelete env m { db := db, log := [] } = .ok p
      ∧ p.1.view = m.view ∧ p.1.textInput = m.textInput := by
  unfold updateDelete
  by_cases hv : m.view ≠ list
  · rw [if_pos hv]; exact ⟨_, rfl, rfl, rfl⟩
  rw [if_neg hv]
  by_cases hg : m.tasks.length = 0 ∨ m.cursor < 0 ∨ m.cursor ≥ (m.tasks.length : Int)
  · rw [if_pos hg]; exact ⟨_, rfl, rfl, rfl⟩
  rw [if_neg hg]
  obtain ⟨t, ht⟩ := index_of_bounds m.tasks m.cursor (by omega) (by omega)
  rw [ht]
  have htext : ∀ x : model, (adjustCursor x).textInput = x.textInput := by
    intro x
    unfold adjustCursor
    split
    · rfl
    · split <;> rfl
  cases h0 : env.execErr 0 <;> cases h1 : env.execErr 1 <;>
    simp [deleteTask, getAllTasks, World.record, h0, h1, adjustCursor_view, htext]

/-- Case `Enter` on a fresh log, in a state whose buffer is empty in list view:
either the view and the text field are untouched, or the view is `list` and the
buffer has been cleared. -/
theorem updateEnter_buffer (env : Env) (m : model) (db : DB)
    (hinv : m.view = list → m.textInput.value = "") :
    ∃ p, updateEnter env m { db := db, log := [] } = .ok p
      ∧ ((p.1.view = m.view ∧ p.1.textInput = m.textInput)
          ∨ (p.1.view = list ∧ p.1.textInput.value = "")) := by
  unfold updateEnter
  by_cases hv : m.view = list
  · rw [if_pos hv]
    rcases enterToggle_spec env m db with hnone | ⟨⟨m1, w1⟩, hsome, hview, hti, _, _⟩
    · rw [hnone]
      exact ⟨_, rfl, Or.inl ⟨rfl, rfl⟩⟩
    · rw [hsome]
      have hbuf : m1.textInput.value = "" := by
        have := hinv hv
        simp only at hti
        rw [hti]; exact this
      simp only [enterSave_empty env m1 w1 hbuf]
      exact ⟨_, rfl, Or.inl ⟨hview, hti⟩⟩
  · rw [if_neg hv]
    by_cases hother : m.view ≠ add ∧ m.view ≠ edit
    · rw [if_pos hother]
      exact ⟨_, rfl, Or.inl ⟨rfl, rfl⟩⟩
    · rw [if_neg hother]
      unfold enterSave
      by_cases hb : m.textInput.value = ""
      · simp [hb]
      obtain ⟨t, ht⟩ := enterTask_ok env m m.textInput.value
      simp only [hb, if_false, ht]
      cases h0 : env.execErr 0 <;> cases h1 : env.execErr 1 <;>
        simp [saveTask, getAllTasks, World.record, h0, h1, TextInput.SetValue, TextInput.Blur]

/-- The states reached from `initialModel` have an empty buffer in list view:
`Update` keeps that property of a state. -/
theorem Update_keeps_list_buffer_empty (tiUpdate : TextInput → Msg → TextInput) (env : Env)
    (m : model) (db : DB) (msg : Msg) (o : Outcome)
    (hinv : m.view = list → m.textInput.value = "")
    (hres : Update tiUpdate env m db msg = .ok o) :
    o.m.view = list → o.m.textInput.value = "" := by
  have hfw : ∀ p : model × World, (p.1.view = list → p.1.textInput.value = "") →
      (forward tiUpdate msg p).m.view = list → (forward tiUpdate msg p).m.textInput.value = "" := by
    intro p hp hv
    rw [forward_view] at hv
    rw [forward_textInput_list tiUpdate msg p hv]
    exact hp hv
  cases msg with
  | other =>
    simp only [Update, Except.ok.injEq] at hres
    subst hres
    exact hfw _ hinv
  | key k =>
    unfold Update at hres
    simp only at hres
    cases hc : keyCase m.keyMap k <;> rw [hc] at hres <;> simp only at hres
    case Quit =>
      simp only [Except.ok.injEq] at hres
      subst hres
      exact hinv
    case Escape =>
      simp only [Except.ok.injEq] at hres
      subst hres
      apply hfw
      unfold updateEscape
      split
      · intro _; rfl
      · exact hinv
    case Add =>
      simp only [Except.ok.injEq] at hres
      subst hres
      apply hfw
      unfold updateAdd
      split
      · intro h
        have hne : add ≠ list := by decide
        exact absurd h hne
      · exact hinv
    case Delete =>
      obtain ⟨p, hp, hpv, hpt⟩ := updateDelete_frame env m db
      simp only [hp, Except.map, Except.ok.injEq] at hres
      subst hres
      apply hfw
      rw [hpv, hpt]; exact hinv
    case Edit =>
      cases hedit : updateEdit m with
      | error e => rw [hedit] at hres; simp [Except.map] at hres
      | ok m1 =>
        rw [hedit] at hres
        simp only [Except.map, Except.ok.injEq] at hres
        subst hres
        apply hfw
        unfold updateEdit at hedit
        split at hedit
        · simp only [Except.ok.injEq] at hedit; subst hedit; exact hinv
        · split at hedit
          · simp only [Except.ok.injEq] at hedit; subst hedit; exact hinv
          · split at hedit
            · simp at hedit
            · simp only [Except.ok.injEq] at hedit
              subst hedit
              intro h
              have hne : edit ≠ list := by decide
              exact absurd h hne
    case Up =>
      simp only [Except.ok.injEq] at hres
      subst hres
      apply hfw
      unfold updateUp
      split <;> exact hinv
    case Down =>
      simp only [Except.ok.injEq] at hres
      subst hres
      apply hfw
      unfold updateDown
      split <;> exact hinv
    case Enter =>
      obtain ⟨p, hp, hcases⟩ := updateEnter_buffer env m db hinv
      simp only [hp, Except.map, Except.ok.injEq] at hres
      subst hres
      apply hfw
      rcases hcases with ⟨hv, ht⟩ | ⟨_, hb⟩
      · rw [hv, ht]; exact hinv
      · intro _; exact hb
    case none =>
      simp only [Except.ok.injEq] at hres
      subst hres
      exact hfw _ hinv

/-- The initial model is in list view with an empty buffer and the cursor at -1. -/
theorem initialModel_list_buffer_empty (env : Env) (db : DB) (m : model)
    (h : initialModel env db = .ok m) :
    m.view = list ∧ m.textInput.value = "" ∧ m.cursor = -1 := by
  unfold initialModel at h
  split at h
  · simp only [Except.ok.injEq] at h
    subst h
    exact ⟨rfl, rfl, rfl⟩
  · simp at h


/-! ## Evaluations of the code at concrete inputs -/

/-- C2, at a failing input: in Edit view with the buffer "Buy milkek" and the
cursor at -1, Confirm issues `saveTask` on the zero task, whose name is empty, the
call succeeds and the table gains a row with an empty name.  The state is reached
from the initial model by the keys j, e, k, enter. -/
theorem Update_edit_confirm_saves_empty_name :
    (Update typeRunes (calmEnv 1700300000 1700300000 1700300000)
        (mkModel edit [taskMilk] (-1) "Buy milkek" true) [rowMilk] (.key "enter")).toOption.map
      (fun o => (o.log, o.db.map Row.name))
      = some ([{ call := .saveTask Task.zero, ok := true }, { call := .getAllTasks, ok := true }],
              ["Buy milk", ""])
    ∧ Task.zero.Name = ""
    ∧ (run typeRunes (calmEnv 1700300000 1700300000 1700300000)
        (mkModel list [taskMilk] (-1) "" false) [rowMilk]
        [.key "j", .key "e", .key "k", .key "enter"]).toOption.map
      (fun p => p.2.map Row.name) = some ["Buy milk", ""] := by
  refine ⟨?_, ?_, ?_⟩ <;> rfl

/-- C3, at a failing input: `saveTask` on a task with ID 0, at a clock reading
equal to the id of a stored row, adds no row and overwrites the stored one; two
tasks added within the same second leave a single row. -/
theorem saveTask_new_collides_with_stored_id :
    (saveTask (calmEnv 1700000000 1700000000 1700000000) { db := [rowMilk], log := [] }
        { ID := 0, Name := "Call mum", DueDate := "", Completed := 0,
          CreatedAt := 1700000000, UpdatedAt := 1700000000 }).2.db
      = [{ rowMilk with name := "Call mum" }]
    ∧ (run typeRunes (calmEnv 1700000200 1700000200 1700000200)
        (mkModel list [] (-1) "" false) []
        [.key "a", .key "x", .key "enter", .key "a", .key "y", .key "enter"]).toOption.map
      (fun p => p.2.map Row.name) = some ["ay"] := by
  refine ⟨?_, ?_⟩ <;> rfl

/-- C4, at a failing input: in List view with two tasks older than a day and
the cursor on the last one, Confirm toggles it, the re-list succeeds and returns
one task, and the cursor stays at 1, the length of the new snapshot. -/
theorem Update_toggle_leaves_cursor_past_end :
    (Update typeRunes (calmEnv 1700300000 1700300000 1700300000)
        (mkModel list [taskMum, taskMilk] 1 "" false) [rowMilk, rowMum] (.key "enter")).toOption.map
      (fun o => (o.log.map CallRec.ok, o.m.tasks, o.m.cursor))
      = some ([true, true], [taskMum], 1) := by
  rfl

/-- C6, at a failing input: in List view with one task and the cursor at 1,
the Edit key indexes the task list out of range and `Update` panics. -/
theorem Update_edit_key_panics_past_end :
    Update typeRunes (calmEnv 1700300000 1700300000 1700300000)
        (mkModel list [taskMum] 1 "" false) [rowDone, rowMum] (.key "e")
      = .error .indexOutOfRange := by
  rfl

/-- C7, at a failing input: with a text field that appends printable keys, the
Add key leaves the buffer "a" and the Edit key on "Buy milk" leaves "Buy milke":
the key that enters the mode is handed to the text field. -/
theorem Update_mode_key_reaches_buffer :
    (Update typeRunes (calmEnv 1700300000 1700300000 1700300000)
        (mkModel list [taskMilk] 0 "" false) [rowMilk] (.key "a")).toOption.map
      (fun o => (o.m.view, o.m.textInput.value)) = some (add, "a")
    ∧ (Update typeRunes (calmEnv 1700300000 1700300000 1700300000)
        (mkModel list [taskMilk] 0 "" false) [rowMilk] (.key "e")).toOption.map
      (fun o => (o.m.view, o.m.textInput.value)) = some (edit, "Buy milke") := by
  refine ⟨?_, ?_⟩ <;> rfl

/-- C8, at a failing input: in Edit view with the cursor at 1, the Up key
moves the cursor to 0 and the Down key moves a cursor at 0 to 1; after j, j, e, k,
enter the renamed row is the one at index 0, not the one that was selected. -/
theorem Update_navigation_moves_cursor_while_editing :
    (Update typeRunes (calmEnv 1700000200 1700000200 1700000200)
        (mkModel edit [taskMum, taskMilk] 1 "Buy milk" true) [rowMilk, rowMum] (.key "up")).toOption.map
      (fun o => (o.m.view, o.m.cursor)) = some (edit, 0)
    ∧ (Update typeRunes (calmEnv 1700000200 1700000200 1700000200)
        (mkModel add [taskMum, taskMilk] 0 "" true) [rowMilk, rowMum] (.key "down")).toOption.map
      (fun o => (o.m.view, o.m.cursor)) = some (add, 1)
    ∧ (run typeRunes (calmEnv 1700000200 1700000200 1700000200)
        (mkModel list [taskMum, taskMilk] (-1) "" false) [rowMilk, rowMum]
        [.key "j", .key "j", .key "e", .key "k", .key "enter"]).toOption.map
      (fun p => p.2.map (fun r => (r.id, r.name)))
      = some [(1700000000, "Buy milk"), (1700000100, "Buy milkek")] := by
  refine ⟨?_, ?_, ?_⟩ <;> rfl

/-- C5, counterexample: in Add view with buffer "x", when `saveTask` succeeds
and the re-list that follows fails, a store operation has failed and the view
after the key is List, not Add.  And in a List-view state with a non-empty buffer,
when the toggle and its re-list succeed and the `saveTask` that follows fails, a
store operation has failed and the snapshot is not the one before the key. -/
theorem Update_failed_store_call_changes_state :
    (∃ o, Update typeRunes (secondCallFails 1700000200 1700000200 1700000200)
        (mkModel add [] (-1) "x" true) [] (.key "enter") = .ok o
      ∧ (∃ c ∈ o.log, c.call = .getAllTasks ∧ c.ok = false)
      ∧ o.m.view ≠ (mkModel add [] (-1) "x" true).view)
    ∧ (∃ o, Update typeRunes (thirdCallFails 1700000200 1700000200 1700000200)
        (mkModel list [taskMum, taskMilk] 1 "x" false) [rowMilk, rowMum] (.key "enter") = .ok o
      ∧ (∃ c ∈ o.log, c.call = .saveTask Task.zero ∧ c.ok = false)
      ∧ o.m.tasks ≠ (mkModel list [taskMum, taskMilk] 1 "x" false).tasks) := by
  constructor
  · refine ⟨_, rfl, ⟨{ call := .getAllTasks, ok := false }, ?_, rfl, rfl⟩, ?_⟩
    · decide
    · decide
  · refine ⟨_, rfl, ⟨{ call := .saveTask Task.zero, ok := false }, ?_, rfl, rfl⟩, ?_⟩
    · decide
    · decide

/-- C9, counterexample: the table holds a row with id 0 and the task passed
to `saveTask` has ID 0; the call succeeds, the row with id 0 keeps its old name
instead of taking the name of the task, and a second row is added. -/
theorem saveTask_sentinel_id_not_updated :
    rowZero ∈ ([rowZero] : DB)
      ∧ (saveTask (calmEnv 1700000200 1700000200 1700000200) { db := [rowZero], log := [] }
            { ID := rowZero.id, Name := "New", DueDate := "", Completed := 0,
              CreatedAt := 1700000200, UpdatedAt := 1700000200 }).1 = .ok ()
      ∧ (saveTask (calmEnv 1700000200 1700000200 1700000200) { db := [rowZero], log := [] }
            { ID := rowZero.id, Name := "New", DueDate := "", Completed := 0,
              CreatedAt := 1700000200, UpdatedAt := 1700000200 }).2.db.filter
          (fun x => decide (x.id = rowZero.id)) = [rowZero]
      ∧ rowZero.name ≠ "New"
      ∧ ((saveTask (calmEnv 1700000200 1700000200 1700000200) { db := [rowZero], log := [] }
            { ID := rowZero.id, Name := "New", DueDate := "", Completed := 0,
              CreatedAt := 1700000200, UpdatedAt := 1700000200 }).2.db.map
          (fun r => (r.id, r.name)))
        = [(0, "Old"), (1700000200, "New")] := by
  refine ⟨by simp, rfl, rfl, by decide, rfl⟩

end TaskUI
